import Mathlib

/-!
# Verification of the h-a-kvnl hierarchical key-value codec

Shallow embedding of `h_a_kvnl.py`: a codec for a hierarchical,
line-oriented key-value notation.  A wire stream is a list of lines; a
line is the skip sentinel (`None` in the source), the terminal marker
(`'\n'`), or a `(key, payload)` record.  Payloads are opaque scalar blobs
(modelled as `String`, standing for Python `bytes`) or `(anno, scalar)`
pairs.  The decoder (`read_single` / `read`) turns the flat stream into
nested values; the encoder (`write_single` / `write`) flattens nested
values back out.

Python generators share one underlying stream across recursion depths.
We model this by explicit state passing: each reading function returns
the items it yielded together with the not-yet-consumed remainder of the
stream.  Recursion is driven by a fuel parameter (a plain `Nat`, so all
definitions compute by kernel reduction); running out of fuel produces
the distinguished error `Err.fuel`, which never coincides with any error
the Python code can raise, and theorems always supply sufficient fuel.
-/

/-- Scalar payloads (`bytes` blobs in the source) are opaque; `""` is the
empty blob `b''`, the only falsy scalar. -/
abbrev Scalar := String

/-- Errors raised by the source, by exception class:
`DecodingError`, `ValueError`, `EOFError` (from `raise EOFError`), and
`TypeError` (raised by Python itself, e.g. when iterating `None`).
`fuel` is an artifact of the fuel-based embedding and corresponds to no
Python behaviour. -/
inductive Err where
  | decoding (msg : String)
  | valueError (msg : String)
  | eofError
  | typeError (msg : String)
  | fuel
  deriving DecidableEq, Repr

/-- A wire payload: a bare scalar, or an `(anno, scalar)` pair
(the header shape that can open a nested block). -/
inductive Payload where
  | scalar (s : Scalar)
  | annotated (a : String) (s : Scalar)
  deriving DecidableEq, Repr

/-- One item of the wire stream: the skip sentinel `None`, the terminal
marker `'\n'`, or a `(key, payload)` record. -/
inductive Line where
  | skip
  | newline
  | record (key : String) (p : Payload)
  deriving DecidableEq, Repr

/-- A Python `dict` key: a string, or some non-string hashable object
(opaque).  `encode_map` rejects non-string keys with `ValueError`. -/
inductive MKey where
  | str (s : String)
  | other
  deriving DecidableEq, Repr

/-- Decoded / encodable values.

* `scalar` — an opaque leaf blob;
* `annotated` — an `(anno, scalar)` two-tuple;
* `vmap` — a Python `dict` (insertion-ordered association list);
* `vlist` — a Python `list`;
* `hvt` — `HierarchicalValueTuple(anno, value, children)` with the
  children materialized (`tuple(children)`), each child being `None`
  (modelled `Option.none`) or a `(key, value)` record;
* `hv` — `HierarchicalValue(anno, value, children)` as produced by
  `read_single` when `decoders is None`: its `children` field is a
  still-unconsumed generator, defunctionalized here as the child-frame
  prefix together with the stream position the generator would read
  from.  Nothing has been consumed from the shared stream when this
  value is yielded. -/
inductive Value where
  | scalar (s : Scalar)
  | annotated (a : String) (s : Scalar)
  | vmap (entries : List (MKey × Value))
  | vlist (items : List Value)
  | hvt (a : String) (s : Scalar) (children : List (Option (String × Value)))
  | hv (a : String) (s : Scalar) (childPre : String) (pending : List Line)

/-- Items yielded by `read_single`: re-emitted skip sentinels, the
terminal marker, or a decoded `(key, value)` pair. -/
inductive ROut where
  | skip
  | term
  | entry (key : String) (v : Value)

/-- The two built-in decoders of the `DECODERS` registry. -/
inductive BDec where
  | bmap
  | blist
  deriving DecidableEq, Repr

/-- The two built-in encoders of the `ENCODERS` registry. -/
inductive BEnc where
  | emap
  | elist
  deriving DecidableEq, Repr

/-- Native types appearing in the `TYPES` auto-detection table. -/
inductive TKind where
  | tdict
  | tlist
  deriving DecidableEq, Repr

/-- The `default` argument of `read_single` / `read`:
`raiseError` is `raise_decoding_error` (the declared default), `noneD` is
an explicit `default=None` (replaced by `HierarchicalValueTuple` at use),
and `factory` is a caller-supplied factory, modelled as a function on the
materialized children (the factory is assumed to drain the child
generator, as `HierarchicalValueTuple` does). -/
inductive DefaultD where
  | raiseError
  | noneD
  | factory (f : String → Scalar → List (Option (String × Value)) → Value)

/-- `DECODERS = { ('Map', 'M'): decode_map, ('List', 'L'): decode_list }`,
an insertion-ordered table of alias-sets. -/
def DECODERS : List (List String × BDec) :=
  [(["Map", "M"], .bmap), (["List", "L"], .blist)]

/-- `ENCODERS = { ('Map', 'M'): encode_map, ('List', 'L'): encode_list }`. -/
def ENCODERS : List (List String × BEnc) :=
  [(["Map", "M"], .emap), (["List", "L"], .elist)]

/-- `TYPES = { dict: 'M', list: 'L' }`. -/
def TYPES : List (TKind × String) :=
  [(.tdict, "M"), (.tlist, "L")]

/-- Insertion into a Python `dict`: an existing key keeps its position
and receives the new value (last write wins); a new key is appended. -/
def dictInsert : List (MKey × Value) → MKey → Value → List (MKey × Value)
  | [], k, v => [(k, v)]
  | (k', v') :: d, k, v =>
      if k' = k then (k, v) :: d else (k', v') :: dictInsert d k v

/-- `dict(stream)`: fold the yielded children into a dict.  A `None`
skip sentinel in the stream is not a key-value pair, so `dict` raises
`TypeError` on it. -/
def itemsToDict : List (Option (String × Value)) → List (MKey × Value) →
    Except Err (List (MKey × Value))
  | [], acc => .ok acc
  | none :: _, _ => .error (.typeError "cannot convert dictionary update sequence element")
  | some (k, v) :: rest, acc => itemsToDict rest (dictInsert acc (.str k) v)

/-- `list(ensure_empty_key(key, value) for key, value in stream)`:
each child must have an empty key (`ensure_empty_key` raises
`DecodingError` otherwise); a `None` item fails tuple unpacking. -/
def itemsToList : List (Option (String × Value)) → Except Err (List Value)
  | [] => .ok []
  | none :: _ => .error (.typeError "cannot unpack non-sequence")
  | some (k, v) :: rest =>
      if k = "" then
        (itemsToList rest).map (fun l => v :: l)
      else
        .error (.decoding "key is supposed to be empty")

/-- `key.startswith(pre)` on the string's character data. -/
def startswith (s pre : String) : Bool :=
  pre.data.isPrefixOf s.data

/-- The source's `key.removeprefix(pre)`: strip `pre` when present,
else unchanged. -/
def removePre (s pre : String) : String :=
  if pre.data.isPrefixOf s.data then ⟨s.data.drop pre.data.length⟩ else s

/-- `'>' in a`. -/
def containsChar (a : String) (c : Char) : Bool :=
  a.data.contains c

/-- The part of an annotation before the first `'>'`
(`annotation.split('>', maxsplit=1)[0]`). -/
def tagOf (a : String) : String :=
  ⟨a.data.takeWhile (fun c => c ≠ '>')⟩

/-- The part of an annotation after the first `'>'`
(`annotation.split('>', maxsplit=1)[1]`), the prefix increment of the
nested block. -/
def sufOf (a : String) : String :=
  ⟨(a.data.dropWhile (fun c => c ≠ '>')).drop 1⟩

/-- First registry entry whose alias-set contains the tag
(`for annotations, decode in decoders.items(): if annotation in annotations`). -/
def findAlias {α : Type} (table : List (List String × α)) (tag : String) :
    Option α :=
  match table.find? (fun e => tag ∈ e.1) with
  | some e => some e.2
  | none => none

/-- Which task a call to the fueled reader performs: `one` is
`read_single` (yield skips, then one terminator or one entry), `many` is
`read` (yield entries until the terminal marker of this depth). -/
inductive RTask where
  | one
  | many
  deriving DecidableEq, Repr

/-- Split the yield list of a `read_single` call into its leading skip
sentinels and its final item (by construction the final item is the
terminator `'\n'` or a decoded entry). -/
def splitFin : List ROut → List ROut × Option ROut
  | [] => ([], none)
  | [x] => ([], some x)
  | x :: rest =>
      let (s, f) := splitFin rest
      (x :: s, f)

/-- Convert the entries yielded by a `read` call into the children items
a decoder sees: skip sentinels are the `None` objects `read` re-yields. -/
def rToItem : ROut → Option (String × Value)
  | .skip => none
  | .term => none
  | .entry k v => some (k, v)

/-- The decode engine, `read_single` (task `one`, source lines 66-139)
and `read` (task `many`, source lines 142-148), fused into one fueled
function because the two recurse into each other through the shared
stream.  Results pair the yielded items with the unconsumed remainder of
the stream.  In the `decoders is None` branch the child generator is
created but not consumed, so the remainder is the stream right after the
header line and the `hv` value records the generator's start position. -/
def readF (decs : Option (List (List String × BDec))) (dflt : DefaultD) :
    Nat → RTask → String → List Line → Except Err (List ROut × List Line)
  | 0, _, _, _ => .error .fuel
  | _ + 1, .one, _, [] => .error .eofError
  | f + 1, .one, pre, .skip :: rest => do
      let (o, rem) ← readF decs dflt f .one pre rest
      .ok (.skip :: o, rem)
  | _ + 1, .one, _, .newline :: rest => .ok ([.term], rest)
  | f + 1, .one, pre, .record key p :: rest =>
      if startswith key pre then
        let key := removePre key pre
        match p with
        | .scalar s => .ok ([.entry key (.scalar s)], rest)
        | .annotated a v =>
            if containsChar a '>' then
              let tag := tagOf a
              let pre' := pre ++ sufOf a
              match decs with
              | none =>
                  -- children generator created lazily, nothing consumed
                  .ok ([.entry key (.hv tag v pre' rest)], rest)
              | some table =>
                  match findAlias table tag with
                  | some .bmap =>
                      -- decode_map checks its value before pulling children
                      if v = "" then do
                        let (o, rem) ← readF decs dflt f .many pre' rest
                        let d ← itemsToDict (o.map rToItem) []
                        .ok ([.entry key (.vmap d)], rem)
                      else .error (.decoding "value is supposed to be empty")
                  | some .blist =>
                      if v = "" then do
                        let (o, rem) ← readF decs dflt f .many pre' rest
                        let l ← itemsToList (o.map rToItem)
                        .ok ([.entry key (.vlist l)], rem)
                      else .error (.decoding "value is supposed to be empty")
                  | none =>
                      match dflt with
                      | .raiseError =>
                          -- raise_decoding_error fires before the children
                          -- generator is ever advanced
                          .error (.decoding ("unrecognized annotation: " ++ tag))
                      | .noneD => do
                          let (o, rem) ← readF decs dflt f .many pre' rest
                          .ok ([.entry key (.hvt tag v (o.map rToItem))], rem)
                      | .factory fn => do
                          let (o, rem) ← readF decs dflt f .many pre' rest
                          .ok ([.entry key (fn tag v (o.map rToItem))], rem)
            else
              .ok ([.entry key (.annotated a v)], rest)
      else
        .error (.decoding "key is supposed to start with the active prefix")
  | f + 1, .many, pre, s => do
      let (o, rem) ← readF decs dflt f .one pre s
      match splitFin o with
      | (skips, some .term) => .ok (skips, rem)
      | (skips, some (.entry k v)) => do
          let (more, rem') ← readF decs dflt f .many pre rem
          .ok (skips ++ .entry k v :: more, rem')
      | _ => .error (.typeError "unreachable: read_single yields a terminator")

/-- `read_single` at the stream's own fuel bound. -/
def read_single (decs : Option (List (List String × BDec))) (dflt : DefaultD)
    (pre : String) (s : List Line) : Except Err (List ROut × List Line) :=
  readF decs dflt (2 * s.length + 2) .one pre s

/-- `read` at the stream's own fuel bound. -/
def read (decs : Option (List (List String × BDec))) (dflt : DefaultD)
    (pre : String) (s : List Line) : Except Err (List ROut × List Line) :=
  readF decs dflt (2 * s.length + 2) .many pre s

/-- One item of the sequence fed to `write` / yielded to `write` by the
encoders: the skip sentinel, the terminal marker, or a `(key, value)`
pair. -/
inductive WLine where
  | skip
  | newline
  | entry (key : String) (v : Value)

/-- The `children` slot produced by destructuring in `write_single`:
materialized generic children (from a `HierarchicalValue` subclass with a
tuple), a native dict, a native list, or the unconsumed child generator
of a decoded lazy `HierarchicalValue`. -/
inductive ChildrenV where
  | fromHV (items : List (Option (String × Value)))
  | fromMap (entries : List (MKey × Value))
  | fromList (items : List Value)
  | lazyHV (childPre : String) (pending : List Line)

/-- Python truthiness of the destructured value slot (`if value:`). -/
def slotTruthy : Value → Bool
  | .scalar s => s ≠ ""
  | .vmap m => !m.isEmpty
  | .vlist l => !l.isEmpty
  | _ => true

/-- Destructure a value into `(annotation?, value-slot, children?)`
(source lines 189-200): a `HierarchicalValue` (either subclass) exposes
all three fields; a two-tuple exposes `(annotation, value)` with
children `None`; anything else is probed for attributes, which native
dicts, lists and scalars do not have. -/
def destructure : Value → Option String × Value × Option ChildrenV
  | .hvt a s ch => (some a, .scalar s, some (.fromHV ch))
  | .hv a s cp pend => (some a, .scalar s, some (.lazyHV cp pend))
  | .annotated a s => (some a, .scalar s, none)
  | .scalar s => (none, .scalar s, none)
  | .vmap m => (none, .vmap m, none)
  | .vlist l => (none, .vlist l, none)

/-- Automatic type detection (source lines 204-208): the first `TYPES`
entry whose native type matches the value supplies the annotation tag;
the value becomes the children and the scalar slot becomes `b''`. -/
def detect : List (TKind × String) → Value → Option (String × ChildrenV)
  | [], _ => none
  | (.tdict, a) :: rest, v =>
      match v with
      | .vmap m => some (a, .fromMap m)
      | _ => detect rest v
  | (.tlist, a) :: rest, v =>
      match v with
      | .vlist l => some (a, .fromList l)
      | _ => detect rest v

/-- `encode_map(value, children)` (source lines 45-51): the scalar slot
must be falsy (note the check raises the `DecodingError` class), every
dict key must be a string (`ValueError` otherwise), and the entries are
yielded in order.  A non-dict children object has no `.items()`, which
Python reports as an attribute error, modelled as `typeError`. -/
def encMapChildren : List (MKey × Value) → Except Err (List WLine)
  | [] => .ok []
  | (MKey.str k, v) :: rest =>
      (encMapChildren rest).map (fun cw => WLine.entry k v :: cw)
  | (MKey.other, _) :: _ => .error (.valueError "key is supposed to be a str")

def encode_map (v : Value) (ch : Option ChildrenV) : Except Err (List WLine) :=
  if slotTruthy v then
    .error (.decoding "value is supposed to be empty")
  else
    match ch with
    | some (.fromMap m) => encMapChildren m
    | _ => .error (.typeError "children object has no attribute items")

/-- `encode_list(value, children)` (source lines 54-58): falsy scalar
slot required (again via the `DecodingError` class), then each element
is yielded under an empty key.  Iterating a non-list children object is
duck-typed chaos in Python (dict keys, record tuples, ...) that no wire
stream can reach with the default registries; left as an error here. -/
def encode_list (v : Value) (ch : Option ChildrenV) : Except Err (List WLine) :=
  if slotTruthy v then
    .error (.decoding "value is supposed to be empty")
  else
    match ch with
    | some (.fromList l) => .ok (l.map (fun v => WLine.entry "" v))
    | _ => .error (.typeError "children object is not a list")

/-- `''.join(prefixes)`. -/
def joinP (pfxs : List String) : String :=
  pfxs.foldl (fun acc p => acc ++ p) ""

/-- Convert materialized generic children back into the line stream
`write` iterates over (`None` sentinels pass through `write_single`). -/
def itemsToWLines (its : List (Option (String × Value))) : List WLine :=
  its.map (fun it =>
    match it with
    | none => WLine.skip
    | some (k, v) => .entry k v)

/-- Which task a call to the fueled writer performs: `entry` is
`write_single` on a `(key, value)` pair, `lines` is `write` on a
sequence of lines (appending the block's terminal marker). -/
inductive WTask where
  | entry (key : String) (v : Value)
  | lines (ls : List WLine)

/-- The encode engine, `write_single` (task `entry`, source lines
151-229) and `write` (task `lines`, source lines 232-235), fused into
one fueled function.  The `default` argument of the source is `None`
throughout (no claim supplies a write-side default factory), so an
unmatched annotation streams the children directly.  Paths a wire-model
value cannot reach with this file's registries (encoding the
still-unconsumed generator of a lazy `HierarchicalValue`, or a native
composite that the `types` table failed to detect) are collapsed to
`typeError`. -/
def writeF (encs : List (List String × BEnc)) (types : List (TKind × String)) :
    Nat → String → List String → WTask → Except Err (List Line)
  | 0, _, _, _ => .error .fuel
  | _ + 1, _, _, .lines [] => .ok [.newline]
  | f + 1, pfx, pfxs, .lines (l :: ls) => do
      let a ← match l with
        | .skip => Except.ok [Line.skip]
        | .newline => Except.ok [Line.newline]
        | .entry k v => writeF encs types f pfx pfxs (.entry k v)
      let b ← writeF encs types f pfx pfxs (.lines ls)
      .ok (a ++ b)
  | f + 1, pfx, pfxs, .entry key v =>
      let d := destructure v
      let fullKey := joinP pfxs ++ key
      let r :=
        match d.1 with
        | some _ => d
        | none =>
            match detect types d.2.1 with
            | some (a, c) => (some a, Value.scalar "", some c)
            | none => d
      match r.1 with
      | none =>
          match r.2.2 with
          | some _ => .error (.decoding "cannot have children without annotation")
          | none =>
              match r.2.1 with
              | .scalar s => .ok [.record fullKey (.scalar s)]
              | _ => .error (.typeError "payload not expressible on the wire")
      | some a =>
          match r.2.1 with
          | .scalar s =>
              let hdr := Line.record fullKey (.annotated (a ++ ">" ++ pfx) s)
              match findAlias encs a with
              | some .emap => do
                  let cw ← encode_map r.2.1 r.2.2
                  let body ← writeF encs types f pfx (pfxs ++ [pfx]) (.lines cw)
                  .ok (hdr :: body)
              | some .elist => do
                  let cw ← encode_list r.2.1 r.2.2
                  let body ← writeF encs types f pfx (pfxs ++ [pfx]) (.lines cw)
                  .ok (hdr :: body)
              | none =>
                  match r.2.2 with
                  | none =>
                      -- write(None, ...): iterating None raises TypeError
                      .error (.typeError "NoneType object is not iterable")
                  | some (.fromHV its) => do
                      let body ← writeF encs types f pfx (pfxs ++ [pfx])
                        (.lines (itemsToWLines its))
                      .ok (hdr :: body)
                  | some _ =>
                      .error (.typeError "children stream not modelled")
          | _ => .error (.typeError "payload not expressible on the wire")

/-- `write_single` with default prefix arguments.  The fuel argument is
the embedding's recursion budget; theorems quantify over it or exhibit a
sufficient amount, so no behaviour depends on a particular choice. -/
def write_single (encs : List (List String × BEnc))
    (types : List (TKind × String)) (fuel : Nat) (wl : WLine) :
    Except Err (List Line) :=
  match wl with
  | .skip => .ok [.skip]
  | .newline => .ok [.newline]
  | .entry k v => writeF encs types fuel "" [] (.entry k v)

/-- `write` with default prefix arguments. -/
def write (encs : List (List String × BEnc)) (types : List (TKind × String))
    (fuel : Nat) (ls : List WLine) : Except Err (List Line) :=
  writeF encs types fuel "" [] (.lines ls)

/-- `decode`: run `read` at the top level and keep the yielded items. -/
def decode (decs : Option (List (List String × BDec))) (dflt : DefaultD)
    (s : List Line) : Except Err (List ROut) :=
  (read decs dflt "" s).map Prod.fst

/-- `encode`: `write` with the default registries. -/
def encode (fuel : Nat) (ls : List WLine) : Except Err (List Line) :=
  write ENCODERS TYPES fuel ls

/-- `decode(encode(...))` with the default registries and a choice of
decode-side `default` argument. -/
def encodeThenDecode (dflt : DefaultD) (fuel : Nat) (ls : List WLine) :
    Except Err (List ROut) :=
  (encode fuel ls).bind (fun out => decode (some DECODERS) dflt out)

/-! ### Lemmas about the string operations -/

lemma startswith_empty (k : String) : startswith k "" = true := by
  simp [startswith, List.isPrefixOf]

lemma removePre_empty (k : String) : removePre k "" = k := by
  simp [removePre, List.isPrefixOf]

lemma string_mk_data (a : String) : (⟨a.data⟩ : String) = a := rfl

lemma containsChar_append_gt (a pfx : String) (h : pfx.data = []) :
    containsChar (a ++ ">" ++ pfx) '>' = true := by
  simp [containsChar, String.data_append, h]

lemma not_mem_of_containsChar_eq_false {a : String} {c : Char}
    (h : containsChar a c = false) : c ∉ a.data := by
  simpa [containsChar] using h

lemma takeWhile_append_gt (l : List Char) (hm : '>' ∉ l) :
    (l ++ ['>']).takeWhile (fun c => c ≠ '>') = l := by
  induction l with
  | nil => rfl
  | cons c cs ih =>
      have hc : c ≠ '>' := by
        intro hcg
        exact hm (by simp [hcg])
      rw [List.cons_append, List.takeWhile_cons_of_pos (by simpa using hc),
        ih (fun hx => hm (List.mem_cons_of_mem _ hx))]

lemma dropWhile_append_gt (l : List Char) (hm : '>' ∉ l) :
    (l ++ ['>']).dropWhile (fun c => c ≠ '>') = ['>'] := by
  induction l with
  | nil => rfl
  | cons c cs ih =>
      have hc : c ≠ '>' := by
        intro hcg
        exact hm (by simp [hcg])
      rw [List.cons_append, List.dropWhile_cons_of_pos (by simpa using hc),
        ih (fun hx => hm (List.mem_cons_of_mem _ hx))]

lemma tagOf_append_gt (a pfx : String) (h : containsChar a '>' = false)
    (hp : pfx.data = []) : tagOf (a ++ ">" ++ pfx) = a := by
  have hm := not_mem_of_containsChar_eq_false h
  have hd : (a ++ ">" ++ pfx).data = a.data ++ ['>'] := by
    simp [String.data_append, hp]
  simp only [tagOf, hd]
  rw [show (fun c => decide (c ≠ '>')) = (fun c : Char => c ≠ '>') from rfl,
    takeWhile_append_gt a.data hm]

lemma sufOf_append_gt (a pfx : String) (h : containsChar a '>' = false)
    (hp : pfx.data = []) : sufOf (a ++ ">" ++ pfx) = "" := by
  have hm := not_mem_of_containsChar_eq_false h
  have hd : (a ++ ">" ++ pfx).data = a.data ++ ['>'] := by
    simp [String.data_append, hp]
  simp only [sufOf, hd]
  rw [show (fun c => decide (c ≠ '>')) = (fun c : Char => c ≠ '>') from rfl,
    dropWhile_append_gt a.data hm]
  rfl

/-! ### Unfolding lemmas for the decode engine -/

lemma ebind_ok {α β : Type} (x : α) (g : α → Except Err β) :
    (Except.ok x : Except Err α) >>= g = g x := rfl

lemma ebind_err {α β : Type} (e : Err) (g : α → Except Err β) :
    (Except.error e : Except Err α) >>= g = Except.error e := rfl

lemma emap_ok {α β : Type} (x : α) (g : α → β) :
    Except.map g (Except.ok x : Except Err α) = .ok (g x) := rfl

lemma emap_err {α β : Type} (e : Err) (g : α → β) :
    Except.map g (Except.error e : Except Err α) = .error e := rfl

lemma readF_one_nil (decs dflt pre f) :
    readF decs dflt (f + 1) .one pre [] = .error .eofError := by
  simp [readF]

lemma readF_one_skip (decs dflt pre f rest o rem)
    (h : readF decs dflt f .one pre rest = .ok (o, rem)) :
    readF decs dflt (f + 1) .one pre (.skip :: rest) = .ok (.skip :: o, rem) := by
  simp only [readF]
  rw [h]
  rfl

lemma readF_one_newline (decs dflt pre f rest) :
    readF decs dflt (f + 1) .one pre (.newline :: rest) = .ok ([.term], rest) := by
  simp [readF]

lemma readF_one_mismatch (decs dflt f pre k p rest)
    (h : startswith k pre = false) :
    readF decs dflt (f + 1) .one pre (.record k p :: rest) =
      .error (.decoding "key is supposed to start with the active prefix") := by
  simp [readF, h, ebind_ok, ebind_err]

lemma readF_one_scalar (decs dflt f pre k s rest)
    (h : startswith k pre = true) :
    readF decs dflt (f + 1) .one pre (.record k (.scalar s) :: rest) =
      .ok ([.entry (removePre k pre) (.scalar s)], rest) := by
  simp [readF, h, ebind_ok, ebind_err]

lemma readF_one_annplain (decs dflt f pre k a v rest)
    (h : startswith k pre = true) (h2 : containsChar a '>' = false) :
    readF decs dflt (f + 1) .one pre (.record k (.annotated a v) :: rest) =
      .ok ([.entry (removePre k pre) (.annotated a v)], rest) := by
  simp [readF, h, h2]

lemma readF_one_lazy (dflt f pre k a v rest)
    (h : startswith k pre = true) (h2 : containsChar a '>' = true) :
    readF none dflt (f + 1) .one pre (.record k (.annotated a v) :: rest) =
      .ok ([.entry (removePre k pre) (.hv (tagOf a) v (pre ++ sufOf a) rest)],
        rest) := by
  simp [readF, h, h2]

lemma readF_one_comp_nonempty (table dflt f pre k a v rest b)
    (h : startswith k pre = true) (h2 : containsChar a '>' = true)
    (h3 : findAlias table (tagOf a) = some b) (h4 : v ≠ "") :
    readF (some table) dflt (f + 1) .one pre (.record k (.annotated a v) :: rest) =
      .error (.decoding "value is supposed to be empty") := by
  cases b <;> simp [readF, h, h2, h3, h4]

lemma readF_one_bmap (table dflt f pre k a rest o rem d)
    (h : startswith k pre = true) (h2 : containsChar a '>' = true)
    (h3 : findAlias table (tagOf a) = some .bmap)
    (hm : readF (some table) dflt f .many (pre ++ sufOf a) rest = .ok (o, rem))
    (hd : itemsToDict (o.map rToItem) [] = .ok d) :
    readF (some table) dflt (f + 1) .one pre (.record k (.annotated a "") :: rest) =
      .ok ([.entry (removePre k pre) (.vmap d)], rem) := by
  simp [readF, h, h2, h3, hm, hd, ebind_ok, ebind_err]

lemma readF_one_bmap_err (table dflt f pre k a rest e)
    (h : startswith k pre = true) (h2 : containsChar a '>' = true)
    (h3 : findAlias table (tagOf a) = some .bmap)
    (hm : readF (some table) dflt f .many (pre ++ sufOf a) rest = .error e) :
    readF (some table) dflt (f + 1) .one pre (.record k (.annotated a "") :: rest) =
      .error e := by
  simp [readF, h, h2, h3, hm, ebind_ok, ebind_err]

lemma readF_one_blist (table dflt f pre k a rest o rem l)
    (h : startswith k pre = true) (h2 : containsChar a '>' = true)
    (h3 : findAlias table (tagOf a) = some .blist)
    (hm : readF (some table) dflt f .many (pre ++ sufOf a) rest = .ok (o, rem))
    (hl : itemsToList (o.map rToItem) = .ok l) :
    readF (some table) dflt (f + 1) .one pre (.record k (.annotated a "") :: rest) =
      .ok ([.entry (removePre k pre) (.vlist l)], rem) := by
  simp [readF, h, h2, h3, hm, hl, ebind_ok, ebind_err]

lemma readF_one_blist_badItems (table dflt f pre k a rest o rem e)
    (h : startswith k pre = true) (h2 : containsChar a '>' = true)
    (h3 : findAlias table (tagOf a) = some .blist)
    (hm : readF (some table) dflt f .many (pre ++ sufOf a) rest = .ok (o, rem))
    (hl : itemsToList (o.map rToItem) = .error e) :
    readF (some table) dflt (f + 1) .one pre (.record k (.annotated a "") :: rest) =
      .error e := by
  simp [readF, h, h2, h3, hm, hl, ebind_ok, ebind_err]

lemma readF_one_raise (table f pre k a v rest)
    (h : startswith k pre = true) (h2 : containsChar a '>' = true)
    (h3 : findAlias table (tagOf a) = none) :
    readF (some table) .raiseError (f + 1) .one pre
        (.record k (.annotated a v) :: rest) =
      .error (.decoding ("unrecognized annotation: " ++ tagOf a)) := by
  simp [readF, h, h2, h3]

lemma readF_one_hvt (table f pre k a v rest o rem)
    (h : startswith k pre = true) (h2 : containsChar a '>' = true)
    (h3 : findAlias table (tagOf a) = none)
    (hm : readF (some table) .noneD f .many (pre ++ sufOf a) rest = .ok (o, rem)) :
    readF (some table) .noneD (f + 1) .one pre
        (.record k (.annotated a v) :: rest) =
      .ok ([.entry (removePre k pre) (.hvt (tagOf a) v (o.map rToItem))], rem) := by
  simp [readF, h, h2, h3, hm, ebind_ok, ebind_err]

lemma readF_one_factory (table fn f pre k a v rest o rem)
    (h : startswith k pre = true) (h2 : containsChar a '>' = true)
    (h3 : findAlias table (tagOf a) = none)
    (hm : readF (some table) (.factory fn) f .many (pre ++ sufOf a) rest =
      .ok (o, rem)) :
    readF (some table) (.factory fn) (f + 1) .one pre
        (.record k (.annotated a v) :: rest) =
      .ok ([.entry (removePre k pre) (fn (tagOf a) v (o.map rToItem))], rem) := by
  simp [readF, h, h2, h3, hm, ebind_ok, ebind_err]

lemma readF_many_one_err (decs dflt f pre s e)
    (h : readF decs dflt f .one pre s = .error e) :
    readF decs dflt (f + 1) .many pre s = .error e := by
  simp [readF, h, ebind_ok, ebind_err]

lemma readF_many_term (decs dflt f pre s rem)
    (h : readF decs dflt f .one pre s = .ok ([.term], rem)) :
    readF decs dflt (f + 1) .many pre s = .ok ([], rem) := by
  simp [readF, h, splitFin, ebind_ok, ebind_err]

lemma readF_many_entry (decs dflt f pre s k v rem more rem')
    (h : readF decs dflt f .one pre s = .ok ([.entry k v], rem))
    (h2 : readF decs dflt f .many pre rem = .ok (more, rem')) :
    readF decs dflt (f + 1) .many pre s = .ok (.entry k v :: more, rem') := by
  simp [readF, h, h2, splitFin, ebind_ok, ebind_err]

lemma readF_many_entry_err (decs dflt f pre s k v rem e)
    (h : readF decs dflt f .one pre s = .ok ([.entry k v], rem))
    (h2 : readF decs dflt f .many pre rem = .error e) :
    readF decs dflt (f + 1) .many pre s = .error e := by
  simp [readF, h, h2, splitFin, ebind_ok, ebind_err]

/-! ### Chunks: line sequences that decode to one entry -/

/-- A chunk is a line sequence that `read_single` decodes to a single
`(key, value)` entry and consumes exactly, independently of what follows
it on the shared stream. -/
def Chunk (decs : Option (List (List String × BDec))) (dflt : DefaultD)
    (pre : String) (out : List Line) (k : String) (v : Value) : Prop :=
  ∀ rest f, 2 * (out ++ rest).length + 1 ≤ f →
    readF decs dflt f .one pre (out ++ rest) = .ok ([.entry k v], rest)

lemma chunk_scalar (decs dflt pre k s) (h : startswith k pre = true) :
    Chunk decs dflt pre [.record k (.scalar s)] (removePre k pre) (.scalar s) := by
  intro rest f hf
  obtain ⟨f', rfl⟩ : ∃ f', f = f' + 1 := ⟨f - 1, by omega⟩
  exact readF_one_scalar decs dflt f' pre k s rest h

/-- `read` over a sequence of chunks followed by the terminal marker
yields exactly the chunks' entries and stops right after the marker. -/
lemma many_of_chunks (decs dflt pre) (chs : List (String × Value × List Line))
    (hc : ∀ c ∈ chs, Chunk decs dflt pre c.2.2 c.1 c.2.1 ∧ c.2.2 ≠ []) :
    ∀ rest f,
      2 * ((chs.map (fun c => c.2.2)).flatten ++ Line.newline :: rest).length + 2 ≤ f →
      readF decs dflt f .many pre
          ((chs.map (fun c => c.2.2)).flatten ++ Line.newline :: rest) =
        .ok (chs.map (fun c => ROut.entry c.1 c.2.1), rest) := by
  induction chs with
  | nil =>
      intro rest f hf
      simp only [List.map_nil, List.flatten_nil, List.nil_append] at hf ⊢
      obtain ⟨f', rfl⟩ : ∃ f', f = f' + 1 := ⟨f - 1, by omega⟩
      have hf' : 1 ≤ f' := by
        simp only [List.length_cons] at hf
        omega
      obtain ⟨f'', rfl⟩ : ∃ f'', f' = f'' + 1 := ⟨f' - 1, by omega⟩
      exact readF_many_term _ _ _ _ _ _ (readF_one_newline decs dflt pre f'' rest)
  | cons c chs ih =>
      intro rest f hf
      simp only [List.map_cons, List.flatten_cons, List.append_assoc] at hf ⊢
      obtain ⟨f', rfl⟩ : ∃ f', f = f' + 1 := ⟨f - 1, by omega⟩
      have hcc := (hc c (List.mem_cons_self c chs)).1
      have hne := (hc c (List.mem_cons_self c chs)).2
      have hpos : 1 ≤ c.2.2.length := by
        cases hq : c.2.2 with
        | nil => exact absurd hq hne
        | cons _ _ => simp
      have hone : readF decs dflt f' .one pre
          (c.2.2 ++ ((chs.map (fun c => c.2.2)).flatten ++ Line.newline :: rest)) =
          .ok ([.entry c.1 c.2.1],
            (chs.map (fun c => c.2.2)).flatten ++ Line.newline :: rest) := by
        apply hcc
        simp only [List.length_append, List.length_cons] at hf ⊢
        omega
      have hmany : readF decs dflt f' .many pre
          ((chs.map (fun c => c.2.2)).flatten ++ Line.newline :: rest) =
          .ok (chs.map (fun c => ROut.entry c.1 c.2.1), rest) := by
        apply ih (fun x hx => hc x (List.mem_cons_of_mem c hx))
        simp only [List.length_append, List.length_cons] at hf ⊢
        omega
      simpa using readF_many_entry decs dflt f' pre _ _ _ _ _ _ hone hmany

/-! ### Scalar-record child streams and dict bookkeeping -/

/-- The wire lines of a run of plain scalar child records. -/
def recLines (kvs : List (String × Scalar)) : List Line :=
  kvs.map (fun e => .record e.1 (.scalar e.2))

lemma flatten_singletons {α β : Type} (g : α → β) (xs : List α) :
    (xs.map (fun x => [g x])).flatten = xs.map g := by
  induction xs with
  | nil => rfl
  | cons x xs ih => simp [ih]

/-- `read` over plain scalar child records at the empty prefix. -/
lemma many_recLines (decs dflt) (kvs : List (String × Scalar)) (rest f)
    (hf : 2 * (recLines kvs ++ Line.newline :: rest).length + 2 ≤ f) :
    readF decs dflt f .many "" (recLines kvs ++ Line.newline :: rest) =
      .ok (kvs.map (fun e => ROut.entry e.1 (.scalar e.2)), rest) := by
  have hch : ∀ c ∈ kvs.map (fun e => (e.1, Value.scalar e.2,
      [Line.record e.1 (.scalar e.2)])), Chunk decs dflt "" c.2.2 c.1 c.2.1 ∧
      c.2.2 ≠ [] := by
    intro c hcm
    simp only [List.mem_map] at hcm
    obtain ⟨e, _, rfl⟩ := hcm
    refine ⟨?_, by simp⟩
    have := chunk_scalar decs dflt "" e.1 e.2 (startswith_empty e.1)
    rwa [removePre_empty] at this
  have hmain := many_of_chunks decs dflt "" _ hch rest f
  have hfl : ((kvs.map (fun e => (e.1, Value.scalar e.2,
      [Line.record e.1 (.scalar e.2)]))).map (fun c => c.2.2)).flatten =
      recLines kvs := by
    simp only [List.map_map]
    exact flatten_singletons (fun e => Line.record e.1 (.scalar e.2)) kvs
  rw [hfl] at hmain
  have hout := hmain hf
  simpa [List.map_map] using hout

/-- `read` over scalar child records never terminated: the stream runs
out before any terminal marker, so `read_single` hits `raise EOFError`. -/
lemma many_recLines_eof (decs dflt) (kvs : List (String × Scalar)) (f)
    (hf : 2 * (recLines kvs).length + 2 ≤ f) :
    readF decs dflt f .many "" (recLines kvs) = .error .eofError := by
  induction kvs generalizing f with
  | nil =>
      obtain ⟨f', rfl⟩ : ∃ f', f = f' + 1 := ⟨f - 1, by omega⟩
      obtain ⟨f'', rfl⟩ : ∃ f'', f' = f'' + 1 := ⟨f' - 1, by omega⟩
      exact readF_many_one_err _ _ _ _ _ _ (readF_one_nil decs dflt "" f'')
  | cons e kvs ih =>
      obtain ⟨f', rfl⟩ : ∃ f', f = f' + 1 := ⟨f - 1, by omega⟩
      obtain ⟨f'', rfl⟩ : ∃ f'', f' = f'' + 1 := ⟨f' - 1, by omega⟩
      have hone : readF decs dflt (f'' + 1) .one "" (recLines (e :: kvs)) =
          .ok ([.entry e.1 (.scalar e.2)], recLines kvs) := by
        have := readF_one_scalar decs dflt f'' "" e.1 e.2 (recLines kvs)
          (startswith_empty e.1)
        rwa [removePre_empty] at this
      have hmany : readF decs dflt (f'' + 1) .many "" (recLines kvs) =
          .error .eofError := by
        apply ih
        simp only [recLines, List.length_map, List.length_cons] at hf ⊢
        omega
      exact readF_many_entry_err _ _ _ _ _ _ _ _ _ hone hmany

/-- `dict(...)` over a run of genuine key-value pairs (no sentinels). -/
lemma itemsToDict_some (ps : List (String × Value)) (acc) :
    itemsToDict (ps.map some) acc =
      .ok (ps.foldl (fun d e => dictInsert d (.str e.1) e.2) acc) := by
  induction ps generalizing acc with
  | nil => rfl
  | cons e ps ih => simp [itemsToDict, ih]

/-- The dict built from a stream of key-value children. -/
def dictOf (ps : List (String × Value)) : List (MKey × Value) :=
  ps.foldl (fun d e => dictInsert d (.str e.1) e.2) []

/-- `d[k]` as an option. -/
def lookupD : List (MKey × Value) → MKey → Option Value
  | [], _ => none
  | (sk, sv) :: d, k => if sk = k then some sv else lookupD d k

lemma lookupD_dictInsert (d : List (MKey × Value)) (k k' : MKey) (v : Value) :
    lookupD (dictInsert d k v) k' =
      if k' = k then some v else lookupD d k' := by
  induction d with
  | nil =>
      by_cases h : k' = k
      · subst h
        simp [dictInsert, lookupD]
      · simp [dictInsert, lookupD, h, Ne.symm h]
  | cons e d ih =>
      obtain ⟨sk, sv⟩ := e
      by_cases hsk : sk = k
      · subst hsk
        by_cases h : k' = sk
        · subst h
          simp [dictInsert, lookupD]
        · simp [dictInsert, lookupD, h, Ne.symm h]
      · by_cases h : k' = k
        · subst h
          simp [dictInsert, lookupD, hsk, ih]
        · by_cases hsk' : sk = k'
          · simp [dictInsert, lookupD, hsk, hsk', h]
          · simp [dictInsert, lookupD, hsk, hsk', ih, h]

/-- Last write wins: looking up a key in the dict built from a child
stream returns the value of the key's last occurrence. -/
lemma lookupD_foldl (ps : List (String × Value)) (acc : List (MKey × Value))
    (k : String) :
    lookupD (ps.foldl (fun d e => dictInsert d (.str e.1) e.2) acc) (.str k) =
      match ps.reverse.find? (fun e => e.1 = k) with
      | some e => some e.2
      | none => lookupD acc (.str k) := by
  induction ps generalizing acc with
  | nil => simp
  | cons e ps ih =>
      simp only [List.foldl_cons, List.reverse_cons, ih]
      rw [List.find?_append]
      cases hq : ps.reverse.find? (fun e => e.1 = k) with
      | some e' => simp
      | none =>
          simp only [Option.none_or]
          by_cases hek : e.1 = k
          · simp [List.find?, hek, lookupD_dictInsert]
          · simp [List.find?, hek, lookupD_dictInsert, Ne.symm,
              fun h : MKey.str e.1 = MKey.str k => hek (by injection h)]

lemma lookupD_dictOf (ps : List (String × Value)) (k : String) :
    lookupD (dictOf ps) (.str k) =
      match ps.reverse.find? (fun e => e.1 = k) with
      | some e => some e.2
      | none => none := by
  rw [dictOf, lookupD_foldl]
  cases ps.reverse.find? (fun e => e.1 = k) <;> simp [lookupD]

lemma dictInsert_fresh (acc : List (MKey × Value)) (k : MKey) (v : Value)
    (h : ∀ e ∈ acc, e.1 ≠ k) : dictInsert acc k v = acc ++ [(k, v)] := by
  induction acc with
  | nil => rfl
  | cons e acc ih =>
      have hek : e.1 ≠ k := h e (List.mem_cons_self e acc)
      simp [dictInsert, hek, ih (fun x hx => h x (List.mem_cons_of_mem e hx))]

/-- With pairwise-distinct keys the dict is just the entry list. -/
lemma foldl_dictInsert_nodup (ps : List (String × Value))
    (acc : List (MKey × Value))
    (hnd : (ps.map (fun e => e.1)).Nodup)
    (hfresh : ∀ e ∈ ps, ∀ e' ∈ acc, e'.1 ≠ MKey.str e.1) :
    ps.foldl (fun d e => dictInsert d (.str e.1) e.2) acc =
      acc ++ ps.map (fun e => (MKey.str e.1, e.2)) := by
  induction ps generalizing acc with
  | nil => simp
  | cons e ps ih =>
      simp only [List.foldl_cons]
      rw [dictInsert_fresh acc (.str e.1) e.2
        (hfresh e (List.mem_cons_self e ps))]
      simp only [List.map_cons, List.nodup_cons] at hnd
      have hf2 : ∀ x ∈ ps, ∀ e' ∈ acc ++ [(MKey.str e.1, e.2)],
          e'.1 ≠ MKey.str x.1 := by
        intro x hx e' he'
        rcases List.mem_append.mp he' with hin | hone
        · exact hfresh x (List.mem_cons_of_mem e hx) e' hin
        · have heq : e' = (MKey.str e.1, e.2) := by simpa using hone
          subst heq
          intro hq
          exact hnd.1 (by
            have hk : e.1 = x.1 := by injection hq
            exact hk ▸ List.mem_map_of_mem (fun y => y.1) hx)
      rw [ih (acc ++ [(MKey.str e.1, e.2)]) hnd.2 hf2]
      simp

lemma dictOf_nodup (ps : List (String × Value))
    (hnd : (ps.map (fun e => e.1)).Nodup) :
    dictOf ps = ps.map (fun e => (MKey.str e.1, e.2)) := by
  rw [dictOf, foldl_dictInsert_nodup ps [] hnd (by simp)]
  simp

/-- `decode_list` accepts exactly the empty-keyed children. -/
lemma itemsToList_empty_keys (vs : List Value) :
    itemsToList (vs.map (fun v => some ("", v))) = .ok vs := by
  induction vs with
  | nil => rfl
  | cons v vs ih => simp [itemsToList, ih, emap_ok]

/-- A sequence child with a non-empty key makes `decode_list` raise the
`ensure_empty_key` decoding error. -/
lemma itemsToList_bad_key (ps : List (String × Value))
    (h : ∃ e ∈ ps, e.1 ≠ "") :
    itemsToList (ps.map some) = .error (.decoding "key is supposed to be empty") := by
  induction ps with
  | nil => simp at h
  | cons e ps ih =>
      by_cases he : e.1 = ""
      · obtain ⟨x, hx, hne⟩ := h
        rcases List.mem_cons.mp hx with rfl | hxs
        · exact absurd he hne
        · simp [itemsToList, he, ih ⟨x, hxs, hne⟩, emap_err]
      · simp [itemsToList, he]

/-! ### Claim theorems -/

lemma read_single_as (decs dflt pre s) :
    read_single decs dflt pre s = readF decs dflt (2 * s.length + 2) .one pre s :=
  rfl

lemma fuel_cons (hd : Line) (rest : List Line) :
    2 * (hd :: rest).length + 2 = (2 * rest.length + 3) + 1 := by
  simp only [List.length_cons]
  omega

/-- C5: on decode, a record's key must start with the prefix active at
the current recursion depth — `read_single` raises a `DecodingError`
when it does not — and otherwise exactly that prefix is stripped from
the key before the `(key, value)` pair is exposed. -/
theorem c5_prefix_checked_and_stripped (decs dflt pre k rest) :
    (∀ p, startswith k pre = false →
      read_single decs dflt pre (.record k p :: rest) =
        .error (.decoding "key is supposed to start with the active prefix")) ∧
    (∀ s, startswith k pre = true →
      read_single decs dflt pre (.record k (.scalar s) :: rest) =
        .ok ([.entry (removePre k pre) (.scalar s)], rest)) ∧
    (∀ a v, startswith k pre = true → containsChar a '>' = false →
      read_single decs dflt pre (.record k (.annotated a v) :: rest) =
        .ok ([.entry (removePre k pre) (.annotated a v)], rest)) := by
  refine ⟨fun p h => ?_, fun s h => ?_, fun a v h h2 => ?_⟩ <;>
    rw [read_single_as, fuel_cons]
  · exact readF_one_mismatch decs dflt _ pre k _ rest h
  · exact readF_one_scalar decs dflt _ pre k s rest h
  · exact readF_one_annplain decs dflt _ pre k a v rest h h2

/-- C5 witness: with active prefix `px`, the key `key` is rejected and
the key `pxkey` is stripped to `key`. -/
theorem c5_witness :
    startswith "key" "px" = false ∧
    read_single (some DECODERS) .raiseError "px"
        [.record "key" (.scalar "v")] =
      .error (.decoding "key is supposed to start with the active prefix") ∧
    startswith "pxkey" "px" = true ∧
    read_single (some DECODERS) .raiseError "px"
        [.record "pxkey" (.scalar "v")] =
      .ok ([.entry (removePre "pxkey" "px") (.scalar "v")], []) :=
  ⟨by decide,
    (c5_prefix_checked_and_stripped (some DECODERS) .raiseError "px" "key" []).1
      (.scalar "v") (by decide),
    by decide,
    (c5_prefix_checked_and_stripped (some DECODERS) .raiseError "px" "pxkey" []).2.1
      "v" (by decide)⟩

/-- C6: a record whose payload carries no annotation, or an annotation
with no `'>'`, is a terminal leaf: `read_single` emits the pair with the
payload unchanged and stops, consuming nothing beyond the record. -/
theorem c6_terminal_leaf (decs dflt pre k rest) :
    (∀ s, startswith k pre = true →
      read_single decs dflt pre (.record k (.scalar s) :: rest) =
        .ok ([.entry (removePre k pre) (.scalar s)], rest)) ∧
    (∀ a v, startswith k pre = true → containsChar a '>' = false →
      read_single decs dflt pre (.record k (.annotated a v) :: rest) =
        .ok ([.entry (removePre k pre) (.annotated a v)], rest)) := by
  refine ⟨fun s h => ?_, fun a v h h2 => ?_⟩ <;> rw [read_single_as, fuel_cons]
  · exact readF_one_scalar decs dflt _ pre k s rest h
  · exact readF_one_annplain decs dflt _ pre k a v rest h h2

/-- C6 witness: the spec's concrete scenario — decoding
`[("key", ("anno", b"value"))]` yields `("key", ("anno", b"value"))`
unchanged, with nothing further consumed. -/
theorem c6_witness :
    read_single (some DECODERS) .raiseError ""
        [.record "key" (.annotated "anno" "value")] =
      .ok ([.entry (removePre "key" "") (.annotated "anno" "value")], []) :=
  (c6_terminal_leaf (some DECODERS) .raiseError "" "key" []).2
    "anno" "value" (by decide) (by decide)

/-- C9: exhausting the stream before a terminal marker closes the block
in progress raises `EOFError` — at top level on an empty stream, in
`read` when child records run out unterminated, and in particular for an
opened `Map` block whose terminal marker is missing. -/
theorem c9_unterminated_eof (decs dflt pre) :
    (read_single decs dflt pre [] = .error .eofError) ∧
    (∀ kvs : List (String × Scalar),
      read decs dflt "" (recLines kvs) = .error .eofError) ∧
    (∀ (key : String) (kvs : List (String × Scalar)),
      read_single (some DECODERS) dflt ""
          (.record key (.annotated "Map>" "") :: recLines kvs) =
        .error .eofError) := by
  refine ⟨?_, fun kvs => ?_, fun key kvs => ?_⟩
  · exact readF_one_nil decs dflt pre 1
  · exact many_recLines_eof decs dflt kvs _ (by omega)
  · rw [read_single_as, fuel_cons]
    apply readF_one_bmap_err DECODERS dflt _ "" key "Map>" (recLines kvs)
      .eofError (startswith_empty key) (by decide) (by decide)
    have hpre : ("" ++ sufOf "Map>") = "" := rfl
    rw [hpre]
    exact many_recLines_eof (some DECODERS) dflt kvs _ (by omega)

/-- C8: a built-in composite header (any registered `Map`/`List` alias)
whose scalar part is non-empty raises a `DecodingError` — before any
child is consumed, hence for every continuation of the stream — and a
`List` block with a non-empty child key raises the `ensure_empty_key`
`DecodingError`. -/
theorem c8_malformed_composite :
    (∀ (table : List (List String × BDec)) dflt f pre k a (v : Scalar) rest b,
      startswith k pre = true → containsChar a '>' = true →
      findAlias table (tagOf a) = some b → v ≠ "" →
      readF (some table) dflt (f + 1) .one pre
          (.record k (.annotated a v) :: rest) =
        .error (.decoding "value is supposed to be empty")) ∧
    (∀ dflt (key : String) (kvs : List (String × Scalar)) rest,
      (∃ e ∈ kvs, e.1 ≠ "") →
      read_single (some DECODERS) dflt ""
          (.record key (.annotated "List>" "") :: (recLines kvs ++ Line.newline :: rest)) =
        .error (.decoding "key is supposed to be empty")) := by
  constructor
  · intro table dflt f pre k a v rest b h h2 h3 h4
    exact readF_one_comp_nonempty table dflt f pre k a v rest b h h2 h3 h4
  · intro dflt key kvs rest hbad
    rw [read_single_as, fuel_cons]
    apply readF_one_blist_badItems DECODERS dflt _ "" key "List>"
      (recLines kvs ++ Line.newline :: rest)
      (kvs.map (fun e => ROut.entry e.1 (.scalar e.2))) rest _
      (startswith_empty key) (by decide) (by decide)
    · have hpre : ("" ++ sufOf "List>") = "" := rfl
      rw [hpre]
      apply many_recLines (some DECODERS) dflt kvs rest
      simp only [List.length_append, List.length_cons, recLines, List.length_map]
      omega
    · have hmap : (kvs.map (fun e => ROut.entry e.1 (Value.scalar e.2))).map rToItem
          = (kvs.map (fun e => (e.1, Value.scalar e.2))).map some := by
        simp [List.map_map, rToItem]
      rw [hmap]
      apply itemsToList_bad_key
      obtain ⟨e, he, hne⟩ := hbad
      exact ⟨(e.1, Value.scalar e.2), List.mem_map_of_mem _ he, hne⟩

/-- C8 witness: `Map` header with non-empty scalar `b"x"`, and a `List`
block containing the non-empty child key `bad`, both raise. -/
theorem c8_witness :
    readF (some DECODERS) .raiseError (0 + 1) .one ""
        (.record "k" (.annotated "Map>" "x") :: []) =
      .error (.decoding "value is supposed to be empty") ∧
    read_single (some DECODERS) .raiseError ""
        (.record "k" (.annotated "List>" "") ::
          (recLines [("bad", "v")] ++ Line.newline :: [])) =
      .error (.decoding "key is supposed to be empty") :=
  ⟨c8_malformed_composite.1 DECODERS .raiseError 0 "" "k" "Map>" "x" [] .bmap
      (by decide) (by decide) (by decide) (by decide),
    c8_malformed_composite.2 .raiseError "k" [("bad", "v")] []
      ⟨("bad", "v"), by decide, by decide⟩⟩

/-- C7: a `Map` block decodes to the dict of its decoded children —
insertion order preserved, duplicates not rejected: a key's value is the
one from its last occurrence, and for duplicate-free keys the dict's
entries are exactly the children in stream order. -/
theorem c7_map_block_dict (dflt) (key : String)
    (kvs : List (String × Scalar)) (rest : List Line) :
    read_single (some DECODERS) dflt ""
        (.record key (.annotated "Map>" "") :: (recLines kvs ++ Line.newline :: rest)) =
      .ok ([.entry key
        (.vmap (dictOf (kvs.map (fun e => (e.1, Value.scalar e.2)))))], rest) ∧
    (∀ k : String,
      lookupD (dictOf (kvs.map (fun e => (e.1, Value.scalar e.2)))) (.str k) =
        (kvs.reverse.find? (fun e => e.1 = k)).map (fun e => Value.scalar e.2)) ∧
    ((kvs.map (fun e => e.1)).Nodup →
      dictOf (kvs.map (fun e => (e.1, Value.scalar e.2))) =
        kvs.map (fun e => (MKey.str e.1, Value.scalar e.2))) := by
  refine ⟨?_, fun k => ?_, fun hnd => ?_⟩
  · rw [read_single_as, fuel_cons]
    have hm1 : readF (some DECODERS) dflt
        (2 * (recLines kvs ++ Line.newline :: rest).length + 3) .many
        ("" ++ sufOf "Map>") (recLines kvs ++ Line.newline :: rest) =
        .ok (kvs.map (fun e => ROut.entry e.1 (.scalar e.2)), rest) := by
      rw [show ("" ++ sufOf "Map>") = "" from rfl]
      exact many_recLines (some DECODERS) dflt kvs rest _ (by omega)
    have hd1 : itemsToDict
        ((kvs.map (fun e => ROut.entry e.1 (Value.scalar e.2))).map rToItem) [] =
        .ok (dictOf (kvs.map (fun e => (e.1, Value.scalar e.2)))) := by
      have hmap : (kvs.map (fun e => ROut.entry e.1 (Value.scalar e.2))).map rToItem
          = (kvs.map (fun e => (e.1, Value.scalar e.2))).map some := by
        simp [List.map_map, rToItem]
      rw [hmap, itemsToDict_some]
      rfl
    have hstep := readF_one_bmap DECODERS dflt _ "" key "Map>" _ _ _ _
      (startswith_empty key) (by decide) (by decide) hm1 hd1
    simpa [removePre_empty] using hstep
  · rw [lookupD_dictOf]
    have hrev : (kvs.map (fun e => (e.1, Value.scalar e.2))).reverse =
        kvs.reverse.map (fun e => (e.1, Value.scalar e.2)) := by
      simp [List.map_reverse]
    rw [hrev, List.find?_map]
    have hpred : ((fun e : String × Value => decide (e.1 = k)) ∘
        (fun e : String × Scalar => (e.1, Value.scalar e.2))) =
        (fun e : String × Scalar => decide (e.1 = k)) := rfl
    rw [hpred]
    cases hq : kvs.reverse.find? (fun e => e.1 = k) <;> simp [hq]
  · rw [dictOf_nodup (kvs.map (fun e => (e.1, Value.scalar e.2)))
      (by simpa [List.map_map, Function.comp] using hnd)]
    simp [List.map_map, Function.comp]

/-- C7 witness: the spec's concrete scenario and, separately, a block
with a duplicated key whose last value wins. -/
theorem c7_witness :
    read_single (some DECODERS) .raiseError ""
        (.record "key" (.annotated "Map>" "") ::
          (recLines [("k1", "v1"), ("k2", "v2")] ++ Line.newline :: [])) =
      .ok ([.entry "key"
        (.vmap (dictOf [("k1", Value.scalar "v1"), ("k2", Value.scalar "v2")]))], []) ∧
    lookupD (dictOf [("k1", Value.scalar "v1"), ("k1", Value.scalar "v2")])
        (.str "k1") = some (Value.scalar "v2") ∧
    dictOf [("k1", Value.scalar "v1"), ("k2", Value.scalar "v2")] =
      [(MKey.str "k1", Value.scalar "v1"), (MKey.str "k2", Value.scalar "v2")] := by
  refine ⟨?_, ?_, ?_⟩
  · have h := (c7_map_block_dict .raiseError "key" [("k1", "v1"), ("k2", "v2")] []).1
    simpa using h
  · have h := (c7_map_block_dict .raiseError "key" [("k1", "v1"), ("k1", "v2")] []).2.1 "k1"
    simpa using h
  · have h := (c7_map_block_dict .raiseError "key" [("k1", "v1"), ("k2", "v2")] []).2.2
      (by decide)
    simpa using h

/-- C2 counterexample: with the `default` argument left at its declared
default (`raise_decoding_error`), an annotation matching no alias-set
makes `read_single` raise a `DecodingError` — it does not synthesize a
generic hierarchical value. -/
theorem c2_counterexample :
    read_single (some DECODERS) .raiseError ""
        [.record "key" (.annotated "foo>" "value"),
         .record "k1" (.scalar "v1"), .newline] =
      .error (.decoding "unrecognized annotation: foo") := rfl

/-- C2 amended: on an unmatched annotation tag, `read_single` raises
with the `default` argument left at its default (`raise_decoding_error`),
synthesizes `HierarchicalValueTuple(tag, scalar, materialized children)`
when the caller passed `default=None`, and synthesizes via the supplied
factory when the caller passed one. -/
theorem c2_amended (key a : String) (v : Scalar)
    (kvs : List (String × Scalar)) (rest : List Line)
    (h2 : containsChar a '>' = true)
    (h3 : findAlias DECODERS (tagOf a) = none)
    (hsuf : sufOf a = "") :
    (read_single (some DECODERS) .raiseError ""
        (.record key (.annotated a v) :: (recLines kvs ++ Line.newline :: rest)) =
      .error (.decoding ("unrecognized annotation: " ++ tagOf a))) ∧
    (read_single (some DECODERS) .noneD ""
        (.record key (.annotated a v) :: (recLines kvs ++ Line.newline :: rest)) =
      .ok ([.entry key (.hvt (tagOf a) v
        (kvs.map (fun e => some (e.1, Value.scalar e.2))))], rest)) ∧
    (∀ fn, read_single (some DECODERS) (.factory fn) ""
        (.record key (.annotated a v) :: (recLines kvs ++ Line.newline :: rest)) =
      .ok ([.entry key (fn (tagOf a) v
        (kvs.map (fun e => some (e.1, Value.scalar e.2))))], rest)) := by
  have hmap : (kvs.map (fun e => ROut.entry e.1 (Value.scalar e.2))).map rToItem
      = kvs.map (fun e => some (e.1, Value.scalar e.2)) := by
    simp [List.map_map, rToItem]
  refine ⟨?_, ?_, fun fn => ?_⟩ <;> rw [read_single_as, fuel_cons]
  · exact readF_one_raise DECODERS _ "" key a v _ (startswith_empty key) h2 h3
  · have hm1 : readF (some DECODERS) .noneD
        (2 * (recLines kvs ++ Line.newline :: rest).length + 3) .many
        ("" ++ sufOf a) (recLines kvs ++ Line.newline :: rest) =
        .ok (kvs.map (fun e => ROut.entry e.1 (.scalar e.2)), rest) := by
      rw [hsuf, show ("" ++ "" : String) = "" from rfl]
      exact many_recLines (some DECODERS) .noneD kvs rest _ (by omega)
    have hstep := readF_one_hvt DECODERS _ "" key a v _ _ _
      (startswith_empty key) h2 h3 hm1
    rw [removePre_empty, hmap] at hstep
    exact hstep
  · have hm1 : readF (some DECODERS) (.factory fn)
        (2 * (recLines kvs ++ Line.newline :: rest).length + 3) .many
        ("" ++ sufOf a) (recLines kvs ++ Line.newline :: rest) =
        .ok (kvs.map (fun e => ROut.entry e.1 (.scalar e.2)), rest) := by
      rw [hsuf, show ("" ++ "" : String) = "" from rfl]
      exact many_recLines (some DECODERS) (.factory fn) kvs rest _ (by omega)
    have hstep := readF_one_factory DECODERS fn _ "" key a v _ _ _
      (startswith_empty key) h2 h3 hm1
    rw [removePre_empty, hmap] at hstep
    exact hstep

/-- C2 witness: the amended behaviour at the tag `foo`, one child
record, and each of the three `default` configurations. -/
theorem c2_witness :
    (read_single (some DECODERS) .raiseError ""
        (.record "key" (.annotated "foo>" "value") ::
          (recLines [("k1", "v1")] ++ Line.newline :: [])) =
      .error (.decoding ("unrecognized annotation: " ++ tagOf "foo>"))) ∧
    (read_single (some DECODERS) .noneD ""
        (.record "key" (.annotated "foo>" "value") ::
          (recLines [("k1", "v1")] ++ Line.newline :: [])) =
      .ok ([.entry "key" (.hvt (tagOf "foo>") "value"
        [some ("k1", Value.scalar "v1")])], [])) := by
  have h := c2_amended "key" "foo>" "value" [("k1", "v1")] []
    (by decide) (by decide) (by decide)
  exact ⟨h.1, by simpa using h.2.1⟩

/-- C4 counterexample: with `decoders=None`, `read_single` yields the
lazy `HierarchicalValue` while the shared stream still sits immediately
after the header — the child block (one record and its terminal marker)
has not been consumed when the pair is yielded. -/
theorem c4_counterexample :
    read_single none .raiseError ""
        [.record "key" (.annotated "a>" "v"),
         .record "k1" (.scalar "v1"), .newline] =
      .ok ([.entry "key" (.hv "a" "v" ""
          [.record "k1" (.scalar "v1"), .newline])],
        [.record "k1" (.scalar "v1"), .newline]) ∧
    ([Line.record "k1" (.scalar "v1"), Line.newline] : List Line) ≠ [] :=
  ⟨rfl, by decide⟩

/-- C4 amended: whenever `read_single` runs with a decoder table (any
registered handler, the generic fallback, or a caller-supplied factory)
and yields a pair for an annotated nested block, the stream position it
hands back is exactly the position after the child block was read to its
terminal marker; only `decoders=None` leaves the child block unread. -/
theorem c4_amended (table : List (List String × BDec)) (dflt : DefaultD)
    (f : Nat) (pre key a : String) (v : Scalar) (rest : List Line)
    (o : List ROut) (rem : List Line)
    (h2 : containsChar a '>' = true)
    (hok : readF (some table) dflt (f + 1) .one pre
      (.record key (.annotated a v) :: rest) = .ok (o, rem)) :
    ∃ items, readF (some table) dflt f .many (pre ++ sufOf a) rest =
      .ok (items, rem) := by
  cases hsw : startswith key pre with
  | false =>
      rw [readF_one_mismatch (some table) dflt f pre key _ rest hsw] at hok
      exact absurd hok (by simp)
  | true =>
      simp only [readF, hsw, h2, if_true] at hok
      cases hfa : findAlias table (tagOf a) with
      | some b =>
          cases b with
          | bmap =>
              by_cases hv : v = ""
              · subst hv
                rw [hfa] at hok
                simp only [if_true, reduceIte] at hok
                cases hm : readF (some table) dflt f .many (pre ++ sufOf a) rest with
                | error e => simp [hm, ebind_err] at hok
                | ok pr =>
                    obtain ⟨o', rem'⟩ := pr
                    simp only [hm, ebind_ok] at hok
                    cases hd : itemsToDict (o'.map rToItem) [] with
                    | error e => simp [hd, ebind_err] at hok
                    | ok d =>
                        simp only [hd, ebind_ok] at hok
                        have hrem : rem' = rem := by
                          have hpair := hok
                          simp at hpair
                          exact hpair.2
                        subst hrem
                        exact ⟨o', rfl⟩
              · rw [hfa] at hok
                simp only [hv, if_false, reduceIte] at hok
                simp at hok
          | blist =>
              by_cases hv : v = ""
              · subst hv
                rw [hfa] at hok
                simp only [if_true, reduceIte] at hok
                cases hm : readF (some table) dflt f .many (pre ++ sufOf a) rest with
                | error e => simp [hm, ebind_err] at hok
                | ok pr =>
                    obtain ⟨o', rem'⟩ := pr
                    simp only [hm, ebind_ok] at hok
                    cases hl : itemsToList (o'.map rToItem) with
                    | error e => simp [hl, ebind_err] at hok
                    | ok l =>
                        simp only [hl, ebind_ok] at hok
                        have hrem : rem' = rem := by
                          have hpair := hok
                          simp at hpair
                          exact hpair.2
                        subst hrem
                        exact ⟨o', rfl⟩
              · rw [hfa] at hok
                simp only [hv, if_false, reduceIte] at hok
                simp at hok
      | none =>
          rw [hfa] at hok
          cases dflt with
          | raiseError => simp at hok
          | noneD =>
              cases hm : readF (some table) .noneD f .many (pre ++ sufOf a) rest with
              | error e => simp [hm, ebind_err] at hok
              | ok pr =>
                  obtain ⟨o', rem'⟩ := pr
                  simp only [hm, ebind_ok] at hok
                  have hrem : rem' = rem := by
                    have hpair := hok
                    simp at hpair
                    exact hpair.2
                  subst hrem
                  exact ⟨o', rfl⟩
          | factory fn =>
              cases hm : readF (some table) (.factory fn) f .many (pre ++ sufOf a) rest with
              | error e => simp [hm, ebind_err] at hok
              | ok pr =>
                  obtain ⟨o', rem'⟩ := pr
                  simp only [hm, ebind_ok] at hok
                  have hrem : rem' = rem := by
                    have hpair := hok
                    simp at hpair
                    exact hpair.2
                  subst hrem
                  exact ⟨o', rfl⟩

/-- C4 witness: a `Map` block whose child read really is what produces
the returned stream position. -/
theorem c4_witness :
    ∃ items, readF (some DECODERS) .raiseError 9 .many ("" ++ sufOf "Map>")
        [.record "k1" (.scalar "v1"), .newline] = .ok (items, []) :=
  c4_amended DECODERS .raiseError 9 "" "key" "Map>" "" _ _ []
    (by decide) (by rfl)

/-- C3: the code slip behind the claim.  A two-tuple `(anno, scalar)`
value destructures with `children = None`, yet `write_single` still
appends `'>'` to the annotation and then streams `write(None, ...)`,
and iterating `None` raises `TypeError` — fully draining
`write_single(('key', ('annotation', b'value')))` does not terminate
normally, at any recursion budget. -/
theorem c3_annotated_pair_write_crashes (f : Nat) :
    write_single ENCODERS TYPES (f + 1)
        (.entry "key" (.annotated "annotation" "value")) =
      .error (.typeError "NoneType object is not iterable") := rfl

/-- C10: the public error surface is heterogeneous — non-string map key
on encode raises `ValueError`, stream exhaustion raises `EOFError`, and
the structural violations (prefix mismatch, non-empty composite scalar,
non-empty sequence-child key, unrecognized annotation under the default
handler) raise `DecodingError`, as do the encode-side empty-scalar
checks of `encode_map` / `encode_list` despite occurring during
encoding. -/
theorem c10_error_surface :
    write_single ENCODERS TYPES 5 (.entry "key" (.vmap [(.other, .scalar "v")])) =
      .error (.valueError "key is supposed to be a str") ∧
    read_single (some DECODERS) .raiseError ""
        [.record "k" (.annotated "M>" ""), .record "a" (.scalar "1")] =
      .error .eofError ∧
    read_single (some DECODERS) .raiseError "x" [.record "key" (.scalar "v")] =
      .error (.decoding "key is supposed to start with the active prefix") ∧
    read_single (some DECODERS) .raiseError "" [.record "k" (.annotated "Map>" "x")] =
      .error (.decoding "value is supposed to be empty") ∧
    read_single (some DECODERS) .raiseError ""
        [.record "k" (.annotated "List>" ""), .record "bad" (.scalar "v"), .newline] =
      .error (.decoding "key is supposed to be empty") ∧
    read_single (some DECODERS) .raiseError "" [.record "k" (.annotated "foo>" "v")] =
      .error (.decoding "unrecognized annotation: foo") ∧
    write_single ENCODERS TYPES 5 (.entry "k" (.hvt "M" "x" [])) =
      .error (.decoding "value is supposed to be empty") ∧
    write_single ENCODERS TYPES 5 (.entry "k" (.hvt "L" "x" [])) =
      .error (.decoding "value is supposed to be empty") :=
  ⟨rfl, rfl, rfl, rfl, rfl, rfl, rfl, rfl⟩

/-- C1 counterexample: an annotated scalar pair is expressible in the
model (it is, verbatim, a decode output shape), yet encoding the
single-entry stream `[("k", ("anno", b"value"))]` crashes with
`TypeError` while draining the children, so its round trip is not the
original list. -/
theorem c1_counterexample :
    encodeThenDecode .raiseError 10 [.entry "k" (.annotated "anno" "value")] =
      .error (.typeError "NoneType object is not iterable") ∧
    encodeThenDecode .raiseError 10 [.entry "k" (.annotated "anno" "value")] ≠
      .ok [.entry "k" (.annotated "anno" "value")] :=
  ⟨rfl, fun h => Except.noConfusion h⟩

/-! ### Encode-side computation lemmas -/

lemma string_append_empty (s : String) : s ++ "" = s := by
  cases s with
  | mk d => show (⟨d ++ []⟩ : String) = ⟨d⟩; rw [List.append_nil]

lemma joinP_nil : joinP [] = "" := rfl

lemma joinP_append_one (xs : List String) (x : String) :
    joinP (xs ++ [x]) = joinP xs ++ x := by
  simp [joinP, List.foldl_append]

/-- A dict whose keys are all strings is the image of a string-keyed
entry list. -/
lemma exists_strform (m : List (MKey × Value))
    (hk : ∀ e ∈ m, ∃ ks : String, e.1 = MKey.str ks) :
    ∃ ps : List (String × Value), m = ps.map (fun e => (MKey.str e.1, e.2)) := by
  induction m with
  | nil => exact ⟨[], rfl⟩
  | cons e m ih =>
      obtain ⟨ks, hks⟩ := hk e (List.mem_cons_self e m)
      obtain ⟨ps, hps⟩ := ih (fun x hx => hk x (List.mem_cons_of_mem e hx))
      exact ⟨(ks, e.2) :: ps, by
        simp [← hps, ← hks]⟩

/-- A children tuple with no skip sentinels is the image of an entry
list. -/
lemma exists_someform (ch : List (Option (String × Value)))
    (hch : ∀ it ∈ ch, ∃ k v, it = some (k, v)) :
    ∃ cps : List (String × Value), ch = cps.map some := by
  induction ch with
  | nil => exact ⟨[], rfl⟩
  | cons it ch ih =>
      obtain ⟨k, v, hkv⟩ := hch it (List.mem_cons_self it ch)
      obtain ⟨cps, hcps⟩ := ih (fun x hx => hch x (List.mem_cons_of_mem it hx))
      exact ⟨(k, v) :: cps, by simp [← hcps, hkv]⟩

lemma detect_scalar (types : List (TKind × String)) (s : Scalar) :
    detect types (.scalar s) = none := by
  induction types with
  | nil => rfl
  | cons t types ih => obtain ⟨tk, a⟩ := t; cases tk <;> simp [detect, ih]

lemma encode_map_mapped (ps : List (String × Value)) :
    encode_map (.scalar "") (some (.fromMap (ps.map (fun e => (MKey.str e.1, e.2))))) =
      .ok (ps.map (fun e => WLine.entry e.1 e.2)) := by
  simp only [encode_map, slotTruthy]
  rw [if_neg (by simp)]
  induction ps with
  | nil => rfl
  | cons e ps ih => simp [encMapChildren, ih, emap_ok]

lemma encode_list_mapped (l : List Value) :
    encode_list (.scalar "") (some (.fromList l)) =
      .ok (l.map (fun v => WLine.entry "" v)) := by
  simp only [encode_list, slotTruthy]
  rw [if_neg (by simp)]

lemma findAlias_cons {α : Type} (al : List String) (h : α)
    (table : List (List String × α)) (tag : String) :
    findAlias ((al, h) :: table) tag =
      if tag ∈ al then some h else findAlias table tag := by
  by_cases hm : tag ∈ al <;> simp [findAlias, List.find?, hm]

lemma findAlias_enc_none (a : String)
    (hal : a ∉ (["Map", "M", "List", "L"] : List String)) :
    findAlias ENCODERS a = none := by
  simp only [List.mem_cons, not_or] at hal
  simp [ENCODERS, findAlias_cons, hal.1, hal.2.1, hal.2.2.1, hal.2.2.2.1,
    findAlias]

lemma findAlias_dec_none (a : String)
    (hal : a ∉ (["Map", "M", "List", "L"] : List String)) :
    findAlias DECODERS a = none := by
  simp only [List.mem_cons, not_or] at hal
  simp [DECODERS, findAlias_cons, hal.1, hal.2.1, hal.2.2.1, hal.2.2.2.1,
    findAlias]

/-! ### Forward unfolding lemmas for the encode engine -/

lemma writeF_lines_nil (encs types f pfx pfxs) :
    writeF encs types (f + 1) pfx pfxs (.lines []) = .ok [.newline] := rfl

lemma writeF_lines_cons_entry (encs types f pfx pfxs k v ls a b)
    (ha : writeF encs types f pfx pfxs (.entry k v) = .ok a)
    (hb : writeF encs types f pfx pfxs (.lines ls) = .ok b) :
    writeF encs types (f + 1) pfx pfxs (.lines (WLine.entry k v :: ls)) =
      .ok (a ++ b) := by
  simp [writeF, ha, hb, ebind_ok]

lemma writeF_entry_scalar (encs types f pfx pfxs key s) :
    writeF encs types (f + 1) pfx pfxs (.entry key (.scalar s)) =
      .ok [.record (joinP pfxs ++ key) (.scalar s)] := by
  simp [writeF, destructure, detect_scalar]

lemma writeF_entry_vmap (f : Nat) (pfx : String)
    (pfxs : List String) (key : String) (ps : List (String × Value))
    (b : List Line)
    (hb : writeF ENCODERS TYPES f pfx (pfxs ++ [pfx])
      (.lines (ps.map (fun e => WLine.entry e.1 e.2))) = .ok b) :
    writeF ENCODERS TYPES (f + 1) pfx pfxs
        (.entry key (.vmap (ps.map (fun e => (MKey.str e.1, e.2))))) =
      .ok (.record (joinP pfxs ++ key) (.annotated ("M" ++ ">" ++ pfx) "") :: b) := by
  simp [writeF, destructure, detect, encode_map_mapped, hb, ebind_ok, findAlias]
  rfl

lemma writeF_entry_vlist (f : Nat) (pfx : String) (pfxs : List String)
    (key : String) (l : List Value) (b : List Line)
    (hb : writeF ENCODERS TYPES f pfx (pfxs ++ [pfx])
      (.lines (l.map (fun v => WLine.entry "" v))) = .ok b) :
    writeF ENCODERS TYPES (f + 1) pfx pfxs (.entry key (.vlist l)) =
      .ok (.record (joinP pfxs ++ key) (.annotated ("L" ++ ">" ++ pfx) "") :: b) := by
  simp [writeF, destructure, detect, encode_list_mapped, hb, ebind_ok, findAlias]
  rfl

lemma writeF_entry_hvt (f : Nat) (pfx : String) (pfxs : List String)
    (key a : String) (s : Scalar) (ch : List (Option (String × Value)))
    (b : List Line)
    (hal : findAlias ENCODERS a = none)
    (hb : writeF ENCODERS TYPES f pfx (pfxs ++ [pfx])
      (.lines (itemsToWLines ch)) = .ok b) :
    writeF ENCODERS TYPES (f + 1) pfx pfxs (.entry key (.hvt a s ch)) =
      .ok (.record (joinP pfxs ++ key) (.annotated (a ++ ">" ++ pfx) s) :: b) := by
  simp [writeF, destructure, hal, hb, ebind_ok]

/-! ### Round-trip identity -/

/-- The values whose round trip through the default registries is exact:
scalars, string-keyed duplicate-free dicts, lists, arbitrary nestings of
these, and materialized generic hierarchical values whose tag contains
no `'>'` and collides with no registered alias and whose children are
genuine records.  Annotated scalar pairs and lazy `HierarchicalValue`s
are excluded: the former crash the encoder, the latter depend on an
unconsumed stream. -/
inductive Good : Value → Prop where
  | scalar (s : Scalar) : Good (.scalar s)
  | vmap (m : List (MKey × Value))
      (hk : ∀ e ∈ m, ∃ ks : String, e.1 = MKey.str ks)
      (hnd : (m.map (fun e => e.1)).Nodup)
      (hv : ∀ e ∈ m, Good e.2) : Good (.vmap m)
  | vlist (l : List Value) (hv : ∀ x ∈ l, Good x) : Good (.vlist l)
  | hvt (a : String) (s : Scalar) (ch : List (Option (String × Value)))
      (hgt : containsChar a '>' = false)
      (hal : a ∉ (["Map", "M", "List", "L"] : List String))
      (hsome : ∀ it ∈ ch, ∃ kv : String × Value, it = some kv)
      (hv : ∀ kv : String × Value, some kv ∈ ch → Good kv.2) : Good (.hvt a s ch)

/-- Round-trip induction statement: the value has an encoding that is
produced at every sufficient recursion budget, is non-empty, and decodes
back (with the generic fallback enabled) to exactly the original entry
while consuming exactly itself. -/
def RT (v : Value) : Prop :=
  ∀ (key : String) (pfxs : List String), joinP pfxs = "" →
    ∃ out : List Line, out ≠ [] ∧
      (∃ f0, ∀ g, f0 ≤ g →
        writeF ENCODERS TYPES g "" pfxs (.entry key v) = .ok out) ∧
      (∀ rest f, 2 * (out ++ rest).length + 1 ≤ f →
        readF (some DECODERS) .noneD f .one "" (out ++ rest) =
          .ok ([.entry key v], rest))

lemma exists_someform_pairs (ch : List (Option (String × Value)))
    (hch : ∀ it ∈ ch, ∃ kv : String × Value, it = some kv) :
    ∃ cps : List (String × Value), ch = cps.map some := by
  induction ch with
  | nil => exact ⟨[], rfl⟩
  | cons it ch ih =>
      obtain ⟨kv, hkv⟩ := hch it (List.mem_cons_self it ch)
      obtain ⟨cps, hcps⟩ := ih (fun x hx => hch x (List.mem_cons_of_mem it hx))
      exact ⟨kv :: cps, by simp [← hcps, hkv]⟩

lemma itemsToWLines_somes (cps : List (String × Value)) :
    itemsToWLines (cps.map some) = cps.map (fun e => WLine.entry e.1 e.2) := by
  induction cps with
  | nil => rfl
  | cons e cps ih => simp [itemsToWLines]

/-- A block of sibling values, each individually round-tripping, writes
to the concatenation of per-entry chunks plus the terminal marker. -/
lemma rt_lines (ps : List (String × Value)) (pfxs : List String)
    (hj : joinP pfxs = "") (hrt : ∀ e ∈ ps, RT e.2) :
    ∃ chs : List (String × Value × List Line),
      chs.map (fun c => (c.1, c.2.1)) = ps ∧
      (∀ c ∈ chs, Chunk (some DECODERS) .noneD "" c.2.2 c.1 c.2.1 ∧ c.2.2 ≠ []) ∧
      (∃ f0, ∀ g, f0 ≤ g →
        writeF ENCODERS TYPES g "" pfxs
          (.lines (ps.map (fun e => WLine.entry e.1 e.2))) =
          .ok ((chs.map (fun c => c.2.2)).flatten ++ [Line.newline])) := by
  induction ps with
  | nil =>
      refine ⟨[], rfl, by simp, ⟨1, fun g hg => ?_⟩⟩
      obtain ⟨g', rfl⟩ : ∃ g', g = g' + 1 := ⟨g - 1, by omega⟩
      simp [writeF_lines_nil]
  | cons e ps ih =>
      obtain ⟨oute, hne, ⟨f1, hw1⟩, hr1⟩ :=
        hrt e (List.mem_cons_self e ps) e.1 pfxs hj
      obtain ⟨chs, hmapeq, hch, f2, hw2⟩ :=
        ih (fun x hx => hrt x (List.mem_cons_of_mem e hx))
      refine ⟨(e.1, e.2, oute) :: chs, by simp [hmapeq], ?_, ?_⟩
      · intro c hc
        rcases List.mem_cons.mp hc with rfl | hcs
        · exact ⟨hr1, hne⟩
        · exact hch c hcs
      · refine ⟨max f1 f2 + 1, fun g hg => ?_⟩
        obtain ⟨g', rfl⟩ : ∃ g', g = g' + 1 := ⟨g - 1, by omega⟩
        have hcons := writeF_lines_cons_entry ENCODERS TYPES g' "" pfxs e.1 e.2
          (ps.map (fun x => WLine.entry x.1 x.2)) oute
          ((chs.map (fun c => c.2.2)).flatten ++ [Line.newline])
          (hw1 g' (by omega)) (hw2 g' (by omega))
        simpa [List.append_assoc] using hcons

theorem good_rt (v : Value) (hg : Good v) : RT v := by
  induction hg with
  | scalar s =>
      intro key pfxs hj
      refine ⟨[.record key (.scalar s)], by simp, ⟨1, fun g hgf => ?_⟩,
        fun rest f hf => ?_⟩
      · obtain ⟨g', rfl⟩ : ∃ g', g = g' + 1 := ⟨g - 1, by omega⟩
        have hw := writeF_entry_scalar ENCODERS TYPES g' "" pfxs key s
        rw [hj] at hw
        exact hw
      · obtain ⟨f', rfl⟩ : ∃ f', f = f' + 1 := ⟨f - 1, by omega⟩
        have hr := readF_one_scalar (some DECODERS) .noneD f' "" key s rest
          (startswith_empty key)
        rwa [removePre_empty] at hr
  | vmap m hk hnd hv ih =>
      obtain ⟨ps, rfl⟩ := exists_strform m hk
      intro key pfxs hj
      have hrt : ∀ e ∈ ps, RT e.2 := by
        intro e he
        exact ih _ (List.mem_map_of_mem _ he)
      obtain ⟨chs, hmapeq, hch, f2, hw2⟩ :=
        rt_lines ps (pfxs ++ [""]) (by rw [joinP_append_one, hj]; rfl) hrt
      refine ⟨.record key (.annotated ("M" ++ ">" ++ "") "") ::
          ((chs.map (fun c => c.2.2)).flatten ++ [Line.newline]),
        by simp, ⟨f2 + 1, fun g hgf => ?_⟩, fun rest f hf => ?_⟩
      · obtain ⟨g', rfl⟩ : ∃ g', g = g' + 1 := ⟨g - 1, by omega⟩
        have hw := writeF_entry_vmap g' "" pfxs key ps
          ((chs.map (fun c => c.2.2)).flatten ++ [Line.newline])
          (hw2 g' (by omega))
        rw [hj] at hw
        exact hw
      · obtain ⟨f', rfl⟩ : ∃ f', f = f' + 1 := ⟨f - 1, by omega⟩
        have hassoc : (Line.record key (.annotated ("M" ++ ">" ++ "") "") ::
            ((chs.map (fun c => c.2.2)).flatten ++ [Line.newline])) ++ rest =
            Line.record key (.annotated ("M" ++ ">" ++ "") "") ::
              ((chs.map (fun c => c.2.2)).flatten ++ Line.newline :: rest) := by
          simp
        rw [hassoc]
        have hsuf : ("" ++ sufOf ("M" ++ ">" ++ "")) = "" := by
          rw [sufOf_append_gt "M" "" (by decide) rfl]
          rfl
        have hm1 : readF (some DECODERS) .noneD f' .many
            ("" ++ sufOf ("M" ++ ">" ++ ""))
            ((chs.map (fun c => c.2.2)).flatten ++ Line.newline :: rest) =
            .ok (chs.map (fun c => ROut.entry c.1 c.2.1), rest) := by
          rw [hsuf]
          apply many_of_chunks (some DECODERS) .noneD "" chs hch rest f'
          simp only [List.length_cons, List.length_append] at hf ⊢
          omega
        have hd1 : itemsToDict
            ((chs.map (fun c => ROut.entry c.1 c.2.1)).map rToItem) [] =
            .ok (ps.map (fun e => (MKey.str e.1, e.2))) := by
          have hmap : (chs.map (fun c => ROut.entry c.1 c.2.1)).map rToItem =
              ps.map some := by
            rw [← hmapeq]
            simp [List.map_map, rToItem]
          rw [hmap, itemsToDict_some]
          have hnodup : (ps.map (fun e => e.1)).Nodup := by
            have h1 : ((ps.map (fun e => (MKey.str e.1, e.2))).map
                (fun e => e.1)).Nodup := hnd
            simp only [List.map_map] at h1
            have h2 : (ps.map (fun e => e.1)).map MKey.str =
                ps.map ((fun e => e.1) ∘ (fun e : String × Value =>
                  (MKey.str e.1, e.2))) := by
              simp [List.map_map]
            rw [← h2] at h1
            exact h1.of_map
          rw [show (ps.foldl (fun d e => dictInsert d (.str e.1) e.2) []
              : List (MKey × Value)) = dictOf ps from rfl,
            dictOf_nodup ps hnodup]
        have h3 : findAlias DECODERS (tagOf ("M" ++ ">" ++ "")) = some .bmap := by
          rw [tagOf_append_gt "M" "" (by decide) rfl]
          rfl
        have hres := readF_one_bmap DECODERS .noneD f' "" key ("M" ++ ">" ++ "")
          ((chs.map (fun c => c.2.2)).flatten ++ Line.newline :: rest)
          (chs.map (fun c => ROut.entry c.1 c.2.1)) rest
          (ps.map (fun e => (MKey.str e.1, e.2)))
          (startswith_empty key) (containsChar_append_gt "M" "" rfl) h3 hm1 hd1
        rwa [removePre_empty] at hres
  | vlist l hv ih =>
      intro key pfxs hj
      have hrt : ∀ e ∈ l.map (fun v => (("" : String), v)), RT e.2 := by
        intro e he
        simp only [List.mem_map] at he
        obtain ⟨x, hx, rfl⟩ := he
        exact ih x hx
      obtain ⟨chs, hmapeq, hch, f2, hw2⟩ :=
        rt_lines (l.map (fun v => ("", v))) (pfxs ++ [""])
          (by rw [joinP_append_one, hj]; rfl) hrt
      have hlines : (l.map (fun v => (("" : String), v))).map
          (fun e => WLine.entry e.1 e.2) = l.map (fun v => WLine.entry "" v) := by
        simp [List.map_map]
      rw [hlines] at hw2
      refine ⟨.record key (.annotated ("L" ++ ">" ++ "") "") ::
          ((chs.map (fun c => c.2.2)).flatten ++ [Line.newline]),
        by simp, ⟨f2 + 1, fun g hgf => ?_⟩, fun rest f hf => ?_⟩
      · obtain ⟨g', rfl⟩ : ∃ g', g = g' + 1 := ⟨g - 1, by omega⟩
        have hw := writeF_entry_vlist g' "" pfxs key l
          ((chs.map (fun c => c.2.2)).flatten ++ [Line.newline])
          (hw2 g' (by omega))
        rw [hj] at hw
        exact hw
      · obtain ⟨f', rfl⟩ : ∃ f', f = f' + 1 := ⟨f - 1, by omega⟩
        have hassoc : (Line.record key (.annotated ("L" ++ ">" ++ "") "") ::
            ((chs.map (fun c => c.2.2)).flatten ++ [Line.newline])) ++ rest =
            Line.record key (.annotated ("L" ++ ">" ++ "") "") ::
              ((chs.map (fun c => c.2.2)).flatten ++ Line.newline :: rest) := by
          simp
        rw [hassoc]
        have hsuf : ("" ++ sufOf ("L" ++ ">" ++ "")) = "" := by
          rw [sufOf_append_gt "L" "" (by decide) rfl]
          rfl
        have hm1 : readF (some DECODERS) .noneD f' .many
            ("" ++ sufOf ("L" ++ ">" ++ ""))
            ((chs.map (fun c => c.2.2)).flatten ++ Line.newline :: rest) =
            .ok (chs.map (fun c => ROut.entry c.1 c.2.1), rest) := by
          rw [hsuf]
          apply many_of_chunks (some DECODERS) .noneD "" chs hch rest f'
          simp only [List.length_cons, List.length_append] at hf ⊢
          omega
        have hl1 : itemsToList
            ((chs.map (fun c => ROut.entry c.1 c.2.1)).map rToItem) = .ok l := by
          have hmap : (chs.map (fun c => ROut.entry c.1 c.2.1)).map rToItem =
              l.map (fun v => some ("", v)) := by
            have h0 : (chs.map (fun c => ROut.entry c.1 c.2.1)).map rToItem =
                (chs.map (fun c => (c.1, c.2.1))).map some := by
              simp [List.map_map, rToItem]
            rw [h0, hmapeq]
            simp [List.map_map]
          rw [hmap]
          exact itemsToList_empty_keys l
        have h3 : findAlias DECODERS (tagOf ("L" ++ ">" ++ "")) = some .blist := by
          rw [tagOf_append_gt "L" "" (by decide) rfl]
          rfl
        have hres := readF_one_blist DECODERS .noneD f' "" key ("L" ++ ">" ++ "")
          ((chs.map (fun c => c.2.2)).flatten ++ Line.newline :: rest)
          (chs.map (fun c => ROut.entry c.1 c.2.1)) rest l
          (startswith_empty key) (containsChar_append_gt "L" "" rfl) h3 hm1 hl1
        rwa [removePre_empty] at hres
  | hvt a s ch hgt hal hsome hv ih =>
      obtain ⟨cps, rfl⟩ := exists_someform_pairs ch hsome
      intro key pfxs hj
      have hrt : ∀ e ∈ cps, RT e.2 := fun e he =>
        ih e (List.mem_map_of_mem some he)
      obtain ⟨chs, hmapeq, hch, f2, hw2⟩ :=
        rt_lines cps (pfxs ++ [""]) (by rw [joinP_append_one, hj]; rfl) hrt
      have hwl : ∀ g, writeF ENCODERS TYPES g "" (pfxs ++ [""])
          (.lines (itemsToWLines (cps.map some))) =
          writeF ENCODERS TYPES g "" (pfxs ++ [""])
            (.lines (cps.map (fun e => WLine.entry e.1 e.2))) := by
        intro g
        rw [itemsToWLines_somes]
      refine ⟨.record key (.annotated (a ++ ">" ++ "") s) ::
          ((chs.map (fun c => c.2.2)).flatten ++ [Line.newline]),
        by simp, ⟨f2 + 1, fun g hgf => ?_⟩, fun rest f hf => ?_⟩
      · obtain ⟨g', rfl⟩ : ∃ g', g = g' + 1 := ⟨g - 1, by omega⟩
        have hw := writeF_entry_hvt g' "" pfxs key a s (cps.map some)
          ((chs.map (fun c => c.2.2)).flatten ++ [Line.newline])
          (findAlias_enc_none a hal)
          (by rw [hwl]; exact hw2 g' (by omega))
        rw [hj] at hw
        exact hw
      · obtain ⟨f', rfl⟩ : ∃ f', f = f' + 1 := ⟨f - 1, by omega⟩
        have hassoc : (Line.record key (.annotated (a ++ ">" ++ "") s) ::
            ((chs.map (fun c => c.2.2)).flatten ++ [Line.newline])) ++ rest =
            Line.record key (.annotated (a ++ ">" ++ "") s) ::
              ((chs.map (fun c => c.2.2)).flatten ++ Line.newline :: rest) := by
          simp
        rw [hassoc]
        have hsuf : ("" ++ sufOf (a ++ ">" ++ "")) = "" := by
          rw [sufOf_append_gt a "" hgt rfl]
          rfl
        have hm1 : readF (some DECODERS) .noneD f' .many
            ("" ++ sufOf (a ++ ">" ++ ""))
            ((chs.map (fun c => c.2.2)).flatten ++ Line.newline :: rest) =
            .ok (chs.map (fun c => ROut.entry c.1 c.2.1), rest) := by
          rw [hsuf]
          apply many_of_chunks (some DECODERS) .noneD "" chs hch rest f'
          simp only [List.length_cons, List.length_append] at hf ⊢
          omega
        have h3 : findAlias DECODERS (tagOf (a ++ ">" ++ "")) = none := by
          rw [tagOf_append_gt a "" hgt rfl]
          exact findAlias_dec_none a hal
        have hres := readF_one_hvt DECODERS f' "" key (a ++ ">" ++ "") s
          ((chs.map (fun c => c.2.2)).flatten ++ Line.newline :: rest)
          (chs.map (fun c => ROut.entry c.1 c.2.1)) rest
          (startswith_empty key) (containsChar_append_gt a "" rfl) h3 hm1
        rw [removePre_empty, tagOf_append_gt a "" hgt rfl] at hres
        have hitems : (chs.map (fun c => ROut.entry c.1 c.2.1)).map rToItem =
            cps.map some := by
          rw [← hmapeq]
          simp [List.map_map, rToItem]
        rwa [hitems] at hres

/-- C1 amended: for every value in the round-trippable fragment —
scalars, string-keyed duplicate-free mappings, sequences, arbitrary
nestings, and materialized generic hierarchical values with fresh
`'>'`-free tags — encoding `[(key, V)]` with the default registries
succeeds (at every sufficient recursion budget) and decoding the result
with the generic fallback enabled (`default=None`) yields exactly
`[(key, V)]`, consuming the whole stream. -/
theorem c1_amended_roundtrip (v : Value) (hg : Good v) (key : String) :
    ∃ f out, write ENCODERS TYPES f [WLine.entry key v] = .ok out ∧
      decode (some DECODERS) .noneD out = .ok [.entry key v] := by
  obtain ⟨oute, hne, ⟨f0, hw⟩, hr⟩ := good_rt v hg key [] rfl
  refine ⟨max f0 1 + 1, oute ++ [Line.newline], ?_, ?_⟩
  · show writeF ENCODERS TYPES (max f0 1 + 1) "" [] (.lines [WLine.entry key v]) = _
    have ha := hw (max f0 1) (le_max_left f0 1)
    have hb : writeF ENCODERS TYPES (max f0 1) "" [] (.lines []) =
        .ok [Line.newline] := by
      obtain ⟨g', hg'⟩ : ∃ g', max f0 1 = g' + 1 := ⟨max f0 1 - 1, by omega⟩
      rw [hg']
      exact writeF_lines_nil ENCODERS TYPES g' "" []
    exact writeF_lines_cons_entry ENCODERS TYPES (max f0 1) "" [] key v []
      oute [Line.newline] ha hb
  · have hm : read (some DECODERS) .noneD "" (oute ++ [Line.newline]) =
        .ok ([.entry key v], []) := by
      show readF (some DECODERS) .noneD (2 * (oute ++ [Line.newline]).length + 2)
        .many "" (oute ++ [Line.newline]) = _
      have hch : ∀ c ∈ [(key, v, oute)],
          Chunk (some DECODERS) .noneD "" c.2.2 c.1 c.2.1 ∧ c.2.2 ≠ [] := by
        intro c hc
        rcases List.mem_cons.mp hc with rfl | h
        · exact ⟨hr, hne⟩
        · simp at h
      have hmain := many_of_chunks (some DECODERS) .noneD "" [(key, v, oute)]
        hch [] (2 * (oute ++ [Line.newline]).length + 2) (by simp)
      simpa using hmain
    show (read (some DECODERS) .noneD "" (oute ++ [Line.newline])).map Prod.fst = _
    rw [hm]
    rfl

/-- C1 witness: the one-entry mapping `{"k1": b"v1"}` under key `k`
round-trips exactly. -/
theorem c1_witness :
    ∃ f out, write ENCODERS TYPES f
        [WLine.entry "k" (Value.vmap [(MKey.str "k1", Value.scalar "v1")])] =
        .ok out ∧
      decode (some DECODERS) .noneD out =
        .ok [.entry "k" (Value.vmap [(MKey.str "k1", Value.scalar "v1")])] :=
  c1_amended_roundtrip _
    (Good.vmap [(MKey.str "k1", Value.scalar "v1")]
      (by
        intro e he
        simp only [List.mem_singleton] at he
        exact ⟨"k1", by rw [he]⟩)
      (by simp)
      (by
        intro e he
        simp only [List.mem_singleton] at he
        rw [he]
        exact Good.scalar "v1"))
    "k"
